import Mathlib

/-!
Verification of the MCTS search core of the lc0 chess engine against its
natural-language specification.  The definitions below are a shallow
embedding of src/mcts/search.cc and src/engine.cc: machine integers are
modelled as `Int`/`Nat` (the quantities involved stay far from the 64-bit
overflow boundary), floating-point quantities as rationals, and the
outputs of the external collaborators (chess rules library, tablebase,
neural network, random source) as explicit inputs.
-/

namespace LcZero

/-- Truncation of a rational toward zero, the behaviour of a C++ cast
from a floating value to an integer type. -/
def ratTrunc (x : ℚ) : ℤ := if 0 ≤ x then ⌊x⌋ else ⌈x⌉

/-! ### SearchWorker::ExtendNode (src/mcts/search.cc lines 734-796) -/

/-- Game results as passed to Node::MakeTerminal in mcts/search.cc. -/
inductive GameResult
  | whiteWon
  | blackWon
  | draw
deriving DecidableEq, Repr

/-- WDL scores returned by SyzygyTablebase::probe_wdl. -/
inductive WDLScore
  | wdlWin
  | wdlLoss
  | wdlDraw
  | wdlCursedWin
  | wdlBlessedLoss
deriving DecidableEq, Repr

/-- Probe states of SyzygyTablebase::probe_wdl; ExtendNode only
distinguishes FAIL from the rest. -/
inductive ProbeState
  | fail
  | ok
  | changeStm
  | zeroingBestMove
deriving DecidableEq, Repr

/-- The facts about a leaf position that SearchWorker::ExtendNode reads
from the chess rules library, the position history and the tablebase.
Chess rules are external collaborators of this repository (spec section
1), so their outputs are inputs of the embedded function. -/
structure LeafInfo where
  /-- board.GenerateLegalMoves() came back empty. -/
  noLegalMoves : Bool
  /-- board.IsUnderCheck() -/
  isUnderCheck : Bool
  /-- board.HasMatingMaterial() -/
  hasMatingMaterial : Bool
  /-- history_.Last().GetNoCaptureNoPawnPly() -/
  noCaptureNoPawnPly : ℕ
  /-- history_.Last().GetRepetitions() -/
  repetitions : ℕ
  /-- the node being extended is search_->root_node_ -/
  isRoot : Bool
  /-- search_->syzygy_tb_ is non-null -/
  tbAvailable : Bool
  /-- board.castlings().no_legal_castle() -/
  noLegalCastle : Bool
  /-- (board.ours() + board.theirs()).count() -/
  pieceCount : ℕ
  /-- syzygy_tb_->max_cardinality() -/
  maxCardinality : ℕ
  /-- state produced by syzygy_tb_->probe_wdl -/
  probeState : ProbeState
  /-- WDL score produced by syzygy_tb_->probe_wdl -/
  probeWdl : WDLScore
deriving DecidableEq, Repr

/-- Outcome of SearchWorker::ExtendNode on a fresh leaf: either the node
is made terminal with a game result (the flag records whether the
tb_hits_ counter is incremented on that path), or the node's edges are
created from the legal move list. -/
inductive ExtendResult
  | terminal (result : GameResult) (tbHit : Bool)
  | createEdges
deriving DecidableEq, Repr

/-- SearchWorker::ExtendNode (src/mcts/search.cc lines 734-796).  The
checkmate/stalemate check runs first; the by-rule checks (mating
material, 50-move counter, repetitions, tablebase probe) are guarded by
`node != search_->root_node_` and fall through to CreateEdges. -/
def extendNode (i : LeafInfo) : ExtendResult :=
  if i.noLegalMoves then
    if i.isUnderCheck then .terminal .whiteWon false
    else .terminal .draw false
  else if i.isRoot then .createEdges
  else if ¬i.hasMatingMaterial then .terminal .draw false
  else if 100 ≤ i.noCaptureNoPawnPly then .terminal .draw false
  else if 2 ≤ i.repetitions then .terminal .draw false
  else if i.tbAvailable ∧ i.noLegalCastle ∧ i.noCaptureNoPawnPly = 0 ∧
      i.pieceCount ≤ i.maxCardinality ∧ i.probeState ≠ .fail then
    match i.probeWdl with
    | .wdlWin => .terminal .blackWon true
    | .wdlLoss => .terminal .whiteWon true
    | _ => .terminal .draw true
  else .createEdges

/-- Modelled from the spec: the value semantics of Node::MakeTerminal
live in mcts/node.cc, which is not among this repository's source files.
Spec section 4.4 step (3) states that a leaf with no legal moves while in
check is a checkmate, i.e. a loss for the side to move, and the source's
tablebase branch comment ("If the colors seem backwards, check the
checkmate check above") ties GameResult::WHITE_WON at such a leaf to
exactly that case. -/
def lossForSideToMove : GameResult := .whiteWon

/-! ### Search::MaybeTriggerStop, Stop, Abort
    (src/mcts/search.cc lines 277-324, 518-527) -/

/-- Per-search limits (SearchLimits fields read by the stop logic): a
negative value means the limit is not set. -/
structure LimitsVals where
  playouts : ℤ
  visits : ℤ
  timeMs : ℤ
deriving DecidableEq, Repr

/-- The quantities Search::MaybeTriggerStop reads besides the mutable
stop/bestmove state: the limits, the shared counters and the clock. -/
structure StopEnv where
  limits : LimitsVals
  totalPlayouts : ℤ
  initialVisits : ℤ
  /-- GetTimeSinceStart() at this call -/
  elapsed : ℤ
deriving DecidableEq, Repr

/-- The mutable state Search::MaybeTriggerStop interacts with: the stop_
flag, the responded_bestmove_ flag, the found_best_move_ flag, the
number of best_move_callback_ invocations so far in this search, and the
process-wide bonus_time_ms carry (src/mcts/search.cc line 43). -/
structure SearchCounters where
  stop : Bool
  respondedBestmove : Bool
  foundBestMove : Bool
  callbackCount : ℕ
  bonusTimeMs : ℤ
deriving DecidableEq, Repr

/-- Search::MaybeTriggerStop (src/mcts/search.cc lines 277-324): early
return once the best move was responded or while the root is unexpanded;
set stop_ on found_best_move_ or on any reached finite limit; on the
first transition to stop invoke the best-move callback, mark
responded_bestmove_, and, when the cause was found_best_move_, store
max(0, time_ms - elapsed) into the process-wide bonus_time_ms. -/
def maybeTriggerStop (env : StopEnv) (s : SearchCounters) : SearchCounters :=
  if s.respondedBestmove then s
  else if env.totalPlayouts = 0 then s
  else
    let stop1 := s.stop || s.foundBestMove
    let stop2 := stop1 ||
      (decide (0 ≤ env.limits.playouts) &&
        decide (env.limits.playouts ≤ env.totalPlayouts))
    let stop3 := stop2 ||
      (decide (0 ≤ env.limits.visits) &&
        decide (env.limits.visits ≤ env.totalPlayouts + env.initialVisits))
    let stop4 := stop3 ||
      (decide (0 ≤ env.limits.timeMs) && decide (env.limits.timeMs ≤ env.elapsed))
    if stop4 && !s.respondedBestmove then
      { stop := stop4, respondedBestmove := true,
        foundBestMove := s.foundBestMove,
        callbackCount := s.callbackCount + 1,
        bonusTimeMs :=
          if s.foundBestMove then max 0 (env.limits.timeMs - env.elapsed)
          else s.bonusTimeMs }
    else { s with stop := stop4 }

/-- Search::Stop (src/mcts/search.cc lines 518-521). -/
def stopSearch (s : SearchCounters) : SearchCounters := { s with stop := true }

/-- Search::Abort (src/mcts/search.cc lines 523-527). -/
def abortSearch (s : SearchCounters) : SearchCounters :=
  { s with respondedBestmove := true, stop := true }

/-- SearchWorker::PickNodeToExtend setting found_best_move_ when at most
one root move remains reachable (src/mcts/search.cc lines 724-729). -/
def setFoundBestMove (s : SearchCounters) : SearchCounters :=
  { s with foundBestMove := true }

/-- The operations that touch the stop/bestmove state during one search. -/
inductive SearchEvent
  | trigger (env : StopEnv)
  | stopCmd
  | abortCmd
  | foundBest
deriving Repr

/-- One step of the stop/bestmove state machine. -/
def stepEvent : SearchEvent → SearchCounters → SearchCounters
  | .trigger env, s => maybeTriggerStop env s
  | .stopCmd, s => stopSearch s
  | .abortCmd, s => abortSearch s
  | .foundBest, s => setFoundBestMove s

/-- A whole trace of stop/bestmove operations, in order. -/
def runEvents (es : List SearchEvent) (s : SearchCounters) : SearchCounters :=
  es.foldl (fun t e => stepEvent e t) s

/-- State at Search construction: stop_ and responded_bestmove_ cleared,
found_best_move_ cleared, no callback delivered yet; the process-wide
bonus carry has whatever value the previous search left. -/
def initCounters (bonus : ℤ) : SearchCounters := ⟨false, false, false, 0, bonus⟩

/-! ### Search::UpdateRemainingMoves (src/mcts/search.cc lines 326-367) -/

/-- INT_MAX, the initial value of remaining_playouts_. -/
def intMax : ℤ := 2147483647

/-- Search::UpdateRemainingMoves (src/mcts/search.cc lines 326-367).
Arguments mirror the fields the method reads; `prev` is the value of
remaining_playouts_ before the call (kept unchanged when aggressive time
pruning is disabled).  The time-derived candidate divides by the float
kAggressiveTimePruning and casts the float back to int64_t, modelled by
rational division followed by truncation toward zero. -/
def updateRemainingMoves (aggr : ℚ) (kMiniBatchSize : ℤ) (limits : LimitsVals)
    (totalPlayouts initialVisits elapsed : ℤ) (prev : ℤ) : ℤ :=
  if aggr ≤ 0 then prev
  else
    let r0 : ℤ := intMax
    let r1 : ℤ :=
      if 0 ≤ limits.timeMs ∧ 200 < elapsed then
        let nps := Int.tdiv (1000 * totalPlayouts + 100) (elapsed - 200) + 1
        let remainingTime := limits.timeMs - elapsed
        let cand := ratTrunc (((remainingTime * nps : ℤ) : ℚ) / aggr / 1000)
        if cand < r0 then cand else r0
      else r0
    let r2 : ℤ :=
      if 0 ≤ limits.visits then
        let cand := limits.visits - totalPlayouts - initialVisits +
          kMiniBatchSize - 1
        if cand < r1 then cand else r1
      else r1
    let r3 : ℤ :=
      if 0 ≤ limits.playouts then
        let cand := limits.visits - totalPlayouts + kMiniBatchSize + 1
        if cand < r2 then cand else r2
      else r2
    if r3 ≤ 1 then 1 else r3

/-! ### EngineController::PopulateSearchLimits (src/engine.cc lines 118-201) -/

/-- UCI go parameters read by PopulateSearchLimits; a negative value
stands for "not sent".  Moves are abstracted to identifiers. -/
structure GoParams where
  movetime : ℤ
  wtime : ℤ
  btime : ℤ
  winc : ℤ
  binc : ℤ
  movestogo : ℤ
  nodes : ℤ
  infinite : Bool
  ponder : Bool
  searchmoves : List ℕ
deriving DecidableEq, Repr

/-- Options and externally computed quantities PopulateSearchLimits
uses.  `survival` stands for ComputeSurvivalAtPly with the configured
midpoint and steepness baked in; its transcendental pow stays abstract. -/
structure TimeOptions where
  slowmover : ℚ
  moveOverhead : ℤ
  survival : ℤ → ℚ

/-- The SearchLimits fields PopulateSearchLimits fills in. -/
structure OutLimits where
  timeMs : ℤ
  visits : ℤ
  infinite : Bool
  searchmoves : List ℕ
deriving DecidableEq, Repr

/-- The movestogo guess of src/engine.cc lines 144-158: sum the survival
function over plies ply+2, ply+4, ..., ply+298, normalize by the current
ply's survival value and add 1. -/
def guessedMovestogo (survival : ℤ → ℚ) (ply : ℤ) : ℚ :=
  ((List.range 149).foldl (fun acc k => acc + survival (ply + 2 + 2 * k)) 0) /
    survival ply + 1

/-- The movestogo actually used (src/engine.cc lines 135, 160-164): the
non-standard movestogo 0 becomes 1, and the guess replaces an unsent or
larger-than-guessed explicit movestogo. -/
def effectiveMovestogo (survival : ℤ → ℚ) (ply : ℤ) (movestogoParam : ℤ) : ℚ :=
  let movestogo0 : ℚ := if movestogoParam = 0 then 1 else (movestogoParam : ℚ)
  let guessed := guessedMovestogo survival ply
  if movestogo0 ≤ 0 ∨ guessed < movestogo0 then guessed else movestogo0

/-- Total time including increments until time control, before any bonus
carry is removed (src/engine.cc lines 166-168). -/
def naturalTotalTime (opts : TimeOptions) (ply : ℤ) (isBlack : Bool)
    (p : GoParams) : ℚ :=
  let time : ℤ := if isBlack then p.btime else p.wtime
  let increment : ℤ := max 0 (if isBlack then p.binc else p.winc)
  max 0 ((time : ℚ) +
    increment * (effectiveMovestogo opts.survival ply p.movestogo - 1) -
    opts.moveOverhead)

/-- The slowmover step of src/engine.cc lines 183-187: multiply, unless
a time-extending slowmover would not clear the 200 ms smart-pruning
tolerance. -/
def applySlowmover (slowmover t : ℚ) : ℚ :=
  if slowmover < 1 ∨ 200 < t * slowmover then t * slowmover else t

/-- EngineController::PopulateSearchLimits (src/engine.cc lines
118-201), returning the populated limits together with the new value of
the process-wide bonus_time_ms carry. -/
def populateSearchLimits (opts : TimeOptions) (ply : ℤ) (isBlack : Bool)
    (p : GoParams) (carry : ℤ) : OutLimits × ℤ :=
  let time : ℤ := if isBlack then p.btime else p.wtime
  let infinite := p.infinite || p.ponder
  let visits : ℤ := if infinite then -1 else p.nodes
  if infinite || decide (time < 0) then
    (⟨p.movetime, visits, infinite, p.searchmoves⟩, carry)
  else
    let movestogo := effectiveMovestogo opts.survival ply p.movestogo
    let totalMovesTime0 := naturalTotalTime opts ply isBlack p
    let totalMovesTime :=
      if 0 < carry then totalMovesTime0 - carry else totalMovesTime0
    let thisMoveTime0 := totalMovesTime / movestogo
    let thisMoveTime1 := applySlowmover opts.slowmover thisMoveTime0
    let thisMoveTime2 :=
      if 0 < carry then thisMoveTime1 + carry else thisMoveTime1
    let carry2 : ℤ := if 0 < carry then 0 else carry
    let timeMs : ℤ :=
      max 0 (min (ratTrunc thisMoveTime2) (time - opts.moveOverhead))
    (⟨timeMs, visits, infinite, p.searchmoves⟩, carry2)

/-- Modelled from the claim wording of C9, for comparison with the
source: apply the slowmover multiplier only when the multiplied time
does not fall below the 200 ms threshold, otherwise leave the per-move
time unmultiplied. -/
def claimSlowmover (slowmover t : ℚ) : ℚ :=
  if 200 ≤ t * slowmover then t * slowmover else t

/-! ### Best-child selection and the root pick loop
    (src/mcts/search.cc lines 388-475, 644-732) -/

/-- An outgoing root edge as seen through EdgeAndNode: the move, the
child's visit count (0 without a child node), the child's q, the prior p
and the child's terminal flag. -/
structure REdge where
  mv : ℕ
  n : ℕ
  q : ℚ
  p : ℚ
  isTerminal : Bool
deriving DecidableEq, Repr

/-- Modelled from the spec: EdgeAndNode::GetQ lives in mcts/node.h,
which is not among this repository's source files.  Spec section 4.4
states Q(edge, parent_q) = -child.q if the child has been visited, else
the supplied default. -/
def edgeGetQ (e : REdge) (fallback : ℚ) : ℚ := if 0 < e.n then -e.q else fallback

/-- Modelled from the spec: EdgeAndNode::GetU lives in mcts/node.h; spec
section 4.4 gives the exploration term
c_puct * sqrt(max(children visits, 1)) * P(edge) / (1 + n(edge)), whose
edge-independent factor is the puct_mult argument of the source. -/
def edgeGetU (e : REdge) (puctMult : ℚ) : ℚ := puctMult * e.p / (1 + (e.n : ℚ))

/-- The lexicographic comparison std::tuple performs in
Search::GetBestChildNoTemperature: (visits, q with default -10, prior),
larger wins. -/
def tupleGt (a b : ℤ × ℚ × ℚ) : Bool :=
  decide (b.1 < a.1) ||
    (decide (a.1 = b.1) &&
      (decide (b.2.1 < a.2.1) ||
        (decide (a.2.1 = b.2.1) && decide (b.2.2 < a.2.2))))

/-- Whether a root edge is skipped by the searchmoves restriction: the
filter shared by GetBestChildNoTemperature, GetBestChildWithTemperature
and the root iteration of PickNodeToExtend. -/
def excludedBySearchmoves (isRoot : Bool) (searchmoves : List ℕ)
    (mv : ℕ) : Bool :=
  isRoot && !searchmoves.isEmpty && !searchmoves.contains mv

/-- The edge loop of Search::GetBestChildNoTemperature (lines 425-438). -/
def bestChildNoTempLoop (isRoot : Bool) (searchmoves : List ℕ) :
    List REdge → ℤ × ℚ × ℚ → Option REdge → Option REdge
  | [], _, bestEdge => bestEdge
  | e :: rest, best, bestEdge =>
    if excludedBySearchmoves isRoot searchmoves e.mv then
      bestChildNoTempLoop isRoot searchmoves rest best bestEdge
    else if tupleGt ((e.n : ℤ), edgeGetQ e (-10), e.p) best then
      bestChildNoTempLoop isRoot searchmoves rest
        ((e.n : ℤ), edgeGetQ e (-10), e.p) (some e)
    else bestChildNoTempLoop isRoot searchmoves rest best bestEdge

/-- Search::GetBestChildNoTemperature (src/mcts/search.cc lines
418-440): the child with most visits, ties broken by eval then prior,
subject to the root searchmoves restriction; `isRoot` records whether
the parent is the root node. -/
def getBestChildNoTemperature (isRoot : Bool) (searchmoves : List ℕ)
    (edges : List REdge) : Option REdge :=
  bestChildNoTempLoop isRoot searchmoves edges (-1, 0, 0) none

/-- The root edges surviving the searchmoves filter, in edge order (both
loops of Search::GetBestChildWithTemperature run over exactly these). -/
def includedEdges (isRoot : Bool) (searchmoves : List ℕ)
    (edges : List REdge) : List REdge :=
  edges.filter (fun e => !excludedBySearchmoves isRoot searchmoves e.mv)

/-- The per-edge sampling weights (n_i / n_parent)^(1 / temperature) of
GetBestChildWithTemperature; pow on rationals stays abstract. -/
def tempWeights (powf : ℚ → ℚ → ℚ) (temperature nParent : ℚ)
    (edges : List REdge) : List ℚ :=
  edges.map (fun e => powf ((e.n : ℚ) / nParent) (1 / temperature))

/-- Sum of the first n weights. -/
def sumTo (ws : List ℚ) (n : ℕ) : ℚ := (ws.take n).sum

/-- The cumulative_sums vector of GetBestChildWithTemperature. -/
def cumSums (ws : List ℚ) : List ℚ :=
  (List.range ws.length).map (fun k => sumTo ws (k + 1))

/-- std::lower_bound over the cumulative sums: the index of the first
cumulative sum at least the toss (the length when there is none). -/
def lowerBoundIdx (cums : List ℚ) (t : ℚ) : ℕ :=
  cums.findIdx (fun c => decide (t ≤ c))

/-- Search::GetBestChildWithTemperature (src/mcts/search.cc lines
443-475): weight the included root edges by
(n_i / n_parent)^(1 / temperature), draw a toss in [0, total weight) and
return the included edge whose cumulative-weight slot lower_bound finds;
the random toss is an explicit input. -/
def getBestChildWithTemperature (isRoot : Bool) (searchmoves : List ℕ)
    (edges : List REdge) (powf : ℚ → ℚ → ℚ)
    (temperature nParent toss : ℚ) : Option REdge :=
  let inc := includedEdges isRoot searchmoves edges
  inc[lowerBoundIdx (cumSums (tempWeights powf temperature nParent inc)) toss]?

/-- The arguments of the root iteration of the PickNodeToExtend edge
loop that stay fixed over the edges. -/
structure RootPickArgs where
  stickyCheckmate : Bool
  remainingPlayouts : ℤ
  /-- best_node_n, fetched from best_move_edge_.GetN() before the loop -/
  bestNodeN : ℤ
  /-- the move of best_move_edge_, none while unset -/
  bestMoveEdge : Option ℕ
  searchmoves : List ℕ
  parentQ : ℚ
  puctMult : ℚ
deriving DecidableEq, Repr

/-- The edge loop of SearchWorker::PickNodeToExtend at the root
(src/mcts/search.cc lines 689-721): skip root edges that cannot catch up
with the current best edge within remaining_playouts (never skipping the
current best edge itself), skip edges excluded by searchmoves, count the
surviving moves, break unconditionally on a sticky checkmate, otherwise
keep the edge with the best PUCT score. -/
def rootPickLoop (a : RootPickArgs) :
    List REdge → ℚ → Option REdge → ℕ → Option REdge × ℕ
  | [], _, bestEdge, possibleMoves => (bestEdge, possibleMoves)
  | c :: rest, best, bestEdge, possibleMoves =>
    if a.bestMoveEdge ≠ some c.mv ∧
        a.remainingPlayouts < a.bestNodeN - (c.n : ℤ) then
      rootPickLoop a rest best bestEdge possibleMoves
    else if !a.searchmoves.isEmpty && !a.searchmoves.contains c.mv then
      rootPickLoop a rest best bestEdge possibleMoves
    else if a.stickyCheckmate ∧ edgeGetQ c a.parentQ = 1 ∧ c.isTerminal then
      (some c, possibleMoves + 1)
    else if best < edgeGetU c a.puctMult + edgeGetQ c a.parentQ then
      rootPickLoop a rest (edgeGetU c a.puctMult + edgeGetQ c a.parentQ)
        (some c) (possibleMoves + 1)
    else rootPickLoop a rest best bestEdge (possibleMoves + 1)

/-- The root-level pick of PickNodeToExtend: loop over the root edges
with best initialized to -100, no edge picked and no possible move
counted; the chosen edge is the root edge the playout descends. -/
def pickRootCandidate (a : RootPickArgs) (edges : List REdge) :
    Option REdge × ℕ :=
  rootPickLoop a edges (-100) none 0

/-! ### Temperature decay (src/mcts/search.cc lines 393-402) -/

/-- The temperature decay of Search::GetBestMoveInternal (src/mcts/
search.cc lines 393-402): with temperature and kTempDecayMoves both
nonzero, moves is GetGamePly() / 2 and the temperature scales by
(kTempDecayMoves - moves) / kTempDecayMoves, reaching 0 once moves is at
least kTempDecayMoves. -/
def decayedTemperature (kTemperature : ℚ) (kTempDecayMoves : ℕ)
    (gamePly : ℕ) : ℚ :=
  if kTemperature ≠ 0 ∧ kTempDecayMoves ≠ 0 then
    let moves := gamePly / 2
    if kTempDecayMoves ≤ moves then 0
    else kTemperature * (((kTempDecayMoves - moves : ℕ) : ℚ) / kTempDecayMoves)
  else kTemperature

/-- Modelled from the claim wording of C8, for comparison with the
source: temperature decayed linearly to 0 over kTempDecayMoves
half-moves (plies) of played game. -/
def claimDecayedTemperature (kTemperature : ℚ) (kTempDecayMoves : ℕ)
    (gamePly : ℕ) : ℚ :=
  if kTempDecayMoves ≤ gamePly then 0
  else kTemperature * (((kTempDecayMoves - gamePly : ℕ) : ℚ) / kTempDecayMoves)

/-! ### SearchWorker::FetchSingleNodeResult
    (src/mcts/search.cc lines 942-975) -/

/-- The per-edge policy transform of FetchSingleNodeResult lines
956-961: raise the network prior to the power 1/kPolicySoftmaxTemp when
that temperature is not 1 (pow on rationals stays abstract). -/
def softmaxTempTransform (temp : ℚ) (powf : ℚ → ℚ → ℚ) (p : ℚ) : ℚ :=
  if temp ≠ 1 then powf p (1 / temp) else p

/-- The priors as stored by Edge::SetP before normalization: SetP's
lossy rounding is the abstract `rnd`, and the source accumulates the
loop total only after rounding (lines 955-965). -/
def storedPriors (temp : ℚ) (powf : ℚ → ℚ → ℚ) (rnd : ℚ → ℚ)
    (ps : List ℚ) : List ℚ :=
  ps.map (fun p => rnd (softmaxTempTransform temp powf p))

/-- FetchSingleNodeResult's policy normalization (lines 966-970): scale
every stored prior by 1/total when the post-rounding total is positive;
each scaled prior passes through Edge::SetP's rounding again. -/
def fetchPolicy (temp : ℚ) (powf : ℚ → ℚ → ℚ) (rnd : ℚ → ℚ)
    (ps : List ℚ) : List ℚ :=
  let stored := storedPriors temp powf rnd ps
  let total := stored.sum
  if 0 < total then stored.map (fun p => rnd (p * (1 / total)))
  else stored

/-- The backed-up value of an NN-backed minibatch entry (line 953):
minus the network's q for the position. -/
def fetchValue (qval : ℚ) : ℚ := -qval

/-! ### Search::SendUciInfo hashfull (src/mcts/search.cc lines 156-158) -/

/-- The hashfull figure published by Search::SendUciInfo:
cache size times 1000 divided by the capacity clamped below at 1. -/
def uciHashfull (size capacity : ℕ) : ℕ := size * 1000 / max capacity 1

end LcZero

namespace LcZero

/-- Claim C1: ExtendNode classifies a leaf with no legal moves as
checkmate (a loss for the side to move) when in check and as a stalemate
draw otherwise; insufficient mating material, the 50-move counter,
repetitions and the tablebase probe are then checked in exactly that
priority order, each only for non-root nodes; the root node is never made
terminal by those by-rule checks. -/
theorem extendNode_terminal_rules (i : LeafInfo) :
    (i.noLegalMoves = true → i.isUnderCheck = true →
      extendNode i = .terminal lossForSideToMove false) ∧
    (i.noLegalMoves = true → i.isUnderCheck = false →
      extendNode i = .terminal .draw false) ∧
    (i.noLegalMoves = false → i.isRoot = true → extendNode i = .createEdges) ∧
    (i.noLegalMoves = false → i.isRoot = false → i.hasMatingMaterial = false →
      extendNode i = .terminal .draw false) ∧
    (i.noLegalMoves = false → i.isRoot = false → i.hasMatingMaterial = true →
      100 ≤ i.noCaptureNoPawnPly → extendNode i = .terminal .draw false) ∧
    (i.noLegalMoves = false → i.isRoot = false → i.hasMatingMaterial = true →
      i.noCaptureNoPawnPly < 100 → 2 ≤ i.repetitions →
      extendNode i = .terminal .draw false) ∧
    (i.noLegalMoves = false → i.isRoot = false → i.hasMatingMaterial = true →
      i.noCaptureNoPawnPly < 100 → i.repetitions < 2 →
      i.tbAvailable = true → i.noLegalCastle = true →
      i.noCaptureNoPawnPly = 0 → i.pieceCount ≤ i.maxCardinality →
      i.probeState ≠ .fail →
      extendNode i = .terminal
        (match i.probeWdl with
          | .wdlWin => .blackWon
          | .wdlLoss => .whiteWon
          | _ => .draw) true) ∧
    (i.noLegalMoves = false → i.isRoot = false → i.hasMatingMaterial = true →
      i.noCaptureNoPawnPly < 100 → i.repetitions < 2 →
      ¬(i.tbAvailable = true ∧ i.noLegalCastle = true ∧
        i.noCaptureNoPawnPly = 0 ∧ i.pieceCount ≤ i.maxCardinality ∧
        i.probeState ≠ .fail) →
      extendNode i = .createEdges) := by
  refine ⟨fun h1 h2 => ?_, fun h1 h2 => ?_, fun h1 h2 => ?_,
    fun h1 h2 h3 => ?_, fun h1 h2 h3 h4 => ?_, fun h1 h2 h3 h4 h5 => ?_,
    fun h1 h2 h3 h4 h5 h6 h7 h8 h9 h10 => ?_, fun h1 h2 h3 h4 h5 h6 => ?_⟩
  · simp [extendNode, h1, h2, lossForSideToMove]
  · simp [extendNode, h1, h2]
  · simp [extendNode, h1, h2]
  · simp [extendNode, h1, h2, h3]
  · simp [extendNode, h1, h2, h3, h4]
  · have h4' : ¬(100 ≤ i.noCaptureNoPawnPly) := by omega
    simp [extendNode, h1, h2, h3, h4', h5]
  · have h4' : ¬(100 ≤ i.noCaptureNoPawnPly) := by omega
    have h5' : ¬(2 ≤ i.repetitions) := by omega
    simp [extendNode, h1, h2, h3, h4', h5', h6, h7, h8, h9, h10]
    cases i.probeWdl <;> rfl
  · have h4' : ¬(100 ≤ i.noCaptureNoPawnPly) := by omega
    have h5' : ¬(2 ≤ i.repetitions) := by omega
    simp [extendNode, h1, h2, h3, h4', h5', h6]

/-- Witness for C1 at a concrete leaf: repetitions have priority over the
tablebase probe, so a twice-repeated non-root position is a draw with no
tablebase hit even though the probe would report a win. -/
theorem extendNode_terminal_rules_witness :
    extendNode ⟨false, false, true, 3, 2, false, true, true, 5, 6,
      .ok, .wdlWin⟩ = .terminal .draw false :=
  (extendNode_terminal_rules _).2.2.2.2.2.1 rfl rfl rfl (by decide) (by decide)

/-- Helper: both exits of the non-early-return path of MaybeTriggerStop
store the accumulated stop disjunction into the stop_ flag. -/
theorem maybeTriggerStop_stop_eq (env : StopEnv) (s : SearchCounters)
    (hr : s.respondedBestmove = false) (ht : env.totalPlayouts ≠ 0) :
    (maybeTriggerStop env s).stop =
      (s.stop || s.foundBestMove ||
        (decide (0 ≤ env.limits.playouts) &&
          decide (env.limits.playouts ≤ env.totalPlayouts)) ||
        (decide (0 ≤ env.limits.visits) &&
          decide (env.limits.visits ≤ env.totalPlayouts + env.initialVisits)) ||
        (decide (0 ≤ env.limits.timeMs) &&
          decide (env.limits.timeMs ≤ env.elapsed))) := by
  simp only [maybeTriggerStop, hr, ht, Bool.false_eq_true, if_false,
    Bool.not_false, Bool.and_true]
  split <;> rfl

/-- Claim C3: MaybeTriggerStop never sets the stop flag while
total_playouts is 0, and whenever total_playouts > 0 it sets the stop
flag if found_best_move is set or any finite limit (playouts, visits,
elapsed time) is reached.  The implication responded → stop in the
second part is the run-time invariant that responded_bestmove_ is only
ever set together with stop_. -/
theorem maybeTriggerStop_stop_conditions (env : StopEnv) (s : SearchCounters) :
    (env.totalPlayouts = 0 → (maybeTriggerStop env s).stop = s.stop) ∧
    ((s.respondedBestmove = true → s.stop = true) → 0 < env.totalPlayouts →
      (s.foundBestMove = true ∨
        (0 ≤ env.limits.playouts ∧ env.limits.playouts ≤ env.totalPlayouts) ∨
        (0 ≤ env.limits.visits ∧
          env.limits.visits ≤ env.totalPlayouts + env.initialVisits) ∨
        (0 ≤ env.limits.timeMs ∧ env.limits.timeMs ≤ env.elapsed)) →
      (maybeTriggerStop env s).stop = true) := by
  constructor
  · intro h
    by_cases hr : s.respondedBestmove <;> simp [maybeTriggerStop, hr, h]
  · intro hinv htot hcond
    by_cases hr : s.respondedBestmove
    · simp [maybeTriggerStop, hr, hinv hr]
    · have hr' : s.respondedBestmove = false := by simpa using hr
      have ht : env.totalPlayouts ≠ 0 := by omega
      rw [maybeTriggerStop_stop_eq env s hr' ht]
      rcases hcond with h | ⟨h1, h2⟩ | ⟨h1, h2⟩ | ⟨h1, h2⟩ <;> simp [*]

/-- Witness for C3: with one playout made, a playouts limit of 1 reached
and the invariant holding trivially, the stop flag is set. -/
theorem maybeTriggerStop_stop_conditions_witness :
    (maybeTriggerStop ⟨⟨1, -1, -1⟩, 1, 0, 5⟩ (initCounters 0)).stop = true :=
  (maybeTriggerStop_stop_conditions ⟨⟨1, -1, -1⟩, 1, 0, 5⟩ (initCounters 0)).2
    (by intro h; cases h) (by norm_num) (Or.inr (Or.inl (by norm_num)))

/-- Helper: any step taken after responded_bestmove_ is set leaves the
callback count unchanged and responded_bestmove_ set. -/
theorem stepEvent_after_responded (e : SearchEvent) (s : SearchCounters)
    (h : s.respondedBestmove = true) :
    (stepEvent e s).callbackCount = s.callbackCount ∧
    (stepEvent e s).respondedBestmove = true := by
  cases e <;>
    simp [stepEvent, maybeTriggerStop, stopSearch, abortSearch,
      setFoundBestMove, h]

/-- Helper: a whole trace run after responded_bestmove_ is set leaves the
callback count unchanged. -/
theorem runEvents_after_responded (es : List SearchEvent) :
    ∀ s : SearchCounters, s.respondedBestmove = true →
      (runEvents es s).callbackCount = s.callbackCount := by
  induction es with
  | nil => intro s _; rfl
  | cons e es ih =>
    intro s h
    have hs := stepEvent_after_responded e s h
    calc (runEvents (e :: es) s).callbackCount
        = (runEvents es (stepEvent e s)).callbackCount := rfl
      _ = (stepEvent e s).callbackCount := ih _ hs.2
      _ = s.callbackCount := hs.1

/-- Helper invariant: before the callback has been delivered the count is
0, and the count never exceeds 1. -/
def countersInv (s : SearchCounters) : Prop :=
  (s.respondedBestmove = false → s.callbackCount = 0) ∧ s.callbackCount ≤ 1

/-- Helper: every step of the stop/bestmove state machine preserves the
callback-count invariant. -/
theorem stepEvent_countersInv (e : SearchEvent) (s : SearchCounters)
    (h : countersInv s) : countersInv (stepEvent e s) := by
  obtain ⟨h0, h1⟩ := h
  cases e with
  | trigger env =>
    show countersInv (maybeTriggerStop env s)
    by_cases hr : s.respondedBestmove
    · simp [maybeTriggerStop, hr, countersInv, h0, h1]
    · have hr' : s.respondedBestmove = false := by simpa using hr
      have hc0 : s.callbackCount = 0 := h0 hr'
      by_cases ht : env.totalPlayouts = 0
      · simp [maybeTriggerStop, hr', ht, countersInv, h0, h1]
      · simp only [maybeTriggerStop, hr', ht, Bool.false_eq_true, if_false]
        split <;> simp [countersInv, hc0, h1]
  | stopCmd => exact ⟨fun hh => h0 hh, h1⟩
  | abortCmd => exact ⟨fun hh => (nomatch hh), h1⟩
  | foundBest => exact ⟨fun hh => h0 hh, h1⟩

/-- Helper: the invariant holds along any trace from the initial state. -/
theorem runEvents_countersInv (es : List SearchEvent) :
    ∀ s : SearchCounters, countersInv s → countersInv (runEvents es s) := by
  induction es with
  | nil => intro s h; exact h
  | cons e es ih => intro s h; exact ih _ (stepEvent_countersInv e s h)

/-- Claim C5: per search the best-move callback runs at most once over
any trace of MaybeTriggerStop calls, Stop and Abort commands and
found_best_move updates; MaybeTriggerStop invokes it only while
responded_bestmove is still false and then sets responded_bestmove;
Abort sets responded_bestmove together with stop, so no event after an
Abort ever invokes the callback. -/
theorem bestMoveCallback_at_most_once :
    (∀ (bonus : ℤ) (es : List SearchEvent),
      (runEvents es (initCounters bonus)).callbackCount ≤ 1) ∧
    (∀ (bonus : ℤ) (es₁ es₂ : List SearchEvent),
      (runEvents (es₁ ++ SearchEvent.abortCmd :: es₂)
          (initCounters bonus)).callbackCount =
        (runEvents (es₁ ++ [SearchEvent.abortCmd])
          (initCounters bonus)).callbackCount) ∧
    (∀ s : SearchCounters,
      abortSearch s = { s with stop := true, respondedBestmove := true }) := by
  refine ⟨fun bonus es => ?_, fun bonus es₁ es₂ => ?_, fun s => rfl⟩
  · exact (runEvents_countersInv es (initCounters bonus)
      ⟨fun _ => rfl, by norm_num [initCounters]⟩).2
  · have h1 : runEvents (es₁ ++ SearchEvent.abortCmd :: es₂)
        (initCounters bonus) =
        runEvents es₂ (runEvents (es₁ ++ [SearchEvent.abortCmd])
          (initCounters bonus)) := by
      simp [runEvents, List.foldl_append]
    have h2 : (runEvents (es₁ ++ [SearchEvent.abortCmd])
        (initCounters bonus)).respondedBestmove = true := by
      simp [runEvents, List.foldl_append, stepEvent, abortSearch]
    rw [h1, runEvents_after_responded es₂ _ h2]

/-- Claim C2 (code bug): the playouts branch of UpdateRemainingMoves
reads limits_.visits where limits_.playouts is meant.  With the visits
limit infinite (-1), a playouts limit of 1000, no time limit, no playout
made yet and a mini-batch of 1, the remaining playouts collapse to the
clamp value 1 instead of a bound derived from the 1000 remaining
playouts; handing the same finite budget of 1000 to the visits limit
instead yields 1000. -/
theorem updateRemainingMoves_playouts_branch_bug :
    updateRemainingMoves 1 1 ⟨1000, -1, -1⟩ 0 0 0 2147483647 = 1 ∧
    updateRemainingMoves 1 1 ⟨-1, 1000, -1⟩ 0 0 0 2147483647 = 1000 := by
  constructor <;> norm_num [updateRemainingMoves, intMax]

/-- Claim C4 counterexample: a PopulateSearchLimits call with a positive
carry whose go parameters are infinite takes the early return: it
neither subtracts the carry from any time nor resets it to 0, refuting
"the next PopulateSearchLimits with a positive carry subtracts it ...
and resets the carry to 0". -/
theorem bonusTime_carry_counterexample :
    (populateSearchLimits ⟨1, 100, fun _ => 1⟩ 0 false
      ⟨-1, 10000, 0, 0, 0, 1, -1, true, false, []⟩ 500).2 = 500 ∧
    (500 : ℤ) ≠ 0 := by
  refine ⟨?_, by norm_num⟩
  norm_num [populateSearchLimits]

/-- Claim C4 (amended): when MaybeTriggerStop stops a search because
found_best_move was set, the process-wide carry becomes
max(0, time_ms - elapsed); the next PopulateSearchLimits that reaches
the timed computation (neither infinite/ponder nor a missing
side-to-move clock) with a positive carry subtracts it from the
total-moves time before the division by movestogo and the slowmover
step, adds it back afterwards and resets the carry to 0; a call that
takes the early return (infinite/ponder, or a negative side-to-move
clock) leaves the carry untouched, so each stored bonus is consumed by
exactly the first subsequent timed computation. -/
theorem bonusTime_carry (env : StopEnv) (s : SearchCounters)
    (opts : TimeOptions) (ply : ℤ) (isBlack : Bool) (p : GoParams)
    (carry : ℤ) :
    (s.respondedBestmove = false → env.totalPlayouts ≠ 0 →
      s.foundBestMove = true →
      (maybeTriggerStop env s).bonusTimeMs =
        max 0 (env.limits.timeMs - env.elapsed)) ∧
    (p.infinite = false → p.ponder = false →
      0 ≤ (if isBlack then p.btime else p.wtime) → 0 < carry →
      populateSearchLimits opts ply isBlack p carry =
        (⟨max 0 (min
            (ratTrunc (applySlowmover opts.slowmover
              ((naturalTotalTime opts ply isBlack p - carry) /
                effectiveMovestogo opts.survival ply p.movestogo) + carry))
            ((if isBlack then p.btime else p.wtime) - opts.moveOverhead)),
          p.nodes, false, p.searchmoves⟩, 0)) ∧
    ((p.infinite || p.ponder) = true ∨
        (if isBlack then p.btime else p.wtime) < 0 →
      (populateSearchLimits opts ply isBlack p carry).2 = carry) := by
  refine ⟨fun hr ht hf => ?_, fun h1 h2 h3 h4 => ?_, fun hearly => ?_⟩
  · simp [maybeTriggerStop, hr, ht, hf]
  · have ht' : ¬((if isBlack then p.btime else p.wtime) < 0) := not_lt.mpr h3
    simp [populateSearchLimits, h1, h2, h4, ht']
  · rcases hearly with hinf | htime
    · simp [populateSearchLimits, hinf]
    · simp [populateSearchLimits, htime]

/-- Witness for C4 at concrete inputs: a found-best-move stop at 400 ms
of a 1000 ms budget stores 600 ms of bonus, and a later timed
computation with a 500 ms carry consumes it and clears the register. -/
theorem bonusTime_carry_witness :
    (maybeTriggerStop ⟨⟨-1, -1, 1000⟩, 1, 0, 400⟩
        ⟨false, false, true, 0, -1⟩).bonusTimeMs = max 0 ((1000 : ℤ) - 400) ∧
    populateSearchLimits ⟨1, 100, fun _ => 1⟩ 0 false
        ⟨-1, 10000, 0, 0, 0, 1, -1, false, false, []⟩ 500 =
      (⟨max 0 (min
          (ratTrunc (applySlowmover 1
            ((naturalTotalTime ⟨1, 100, fun _ => 1⟩ 0 false
                ⟨-1, 10000, 0, 0, 0, 1, -1, false, false, []⟩ - 500) /
              effectiveMovestogo (fun _ => 1) 0 1) + 500))
          ((10000 : ℤ) - 100)),
        -1, false, []⟩, 0) := by
  constructor
  · exact (bonusTime_carry ⟨⟨-1, -1, 1000⟩, 1, 0, 400⟩
      ⟨false, false, true, 0, -1⟩ ⟨1, 100, fun _ => 1⟩ 0 false
      ⟨-1, 10000, 0, 0, 0, 1, -1, false, false, []⟩ 500).1 rfl
      (by norm_num) rfl
  · simpa using (bonusTime_carry ⟨⟨-1, -1, 1000⟩, 1, 0, 400⟩
      ⟨false, false, true, 0, -1⟩ ⟨1, 100, fun _ => 1⟩ 0 false
      ⟨-1, 10000, 0, 0, 0, 1, -1, false, false, []⟩ 500).2.1 rfl rfl
      (by norm_num) (by norm_num)

/-- Claim C9 counterexample: with slowmover 1/2 and a per-move time of
300 ms the code multiplies and lands at 150 ms, strictly below the
200 ms threshold, while the claimed rule would leave 300 ms
unmultiplied. -/
theorem applySlowmover_below_threshold :
    applySlowmover (1/2) 300 = 150 ∧ claimSlowmover (1/2) 300 = 300 ∧
    (150 : ℚ) < 200 := by
  norm_num [applySlowmover, claimSlowmover]

/-- Claim C9 (amended): the slowmover step of PopulateSearchLimits
multiplies whenever slowmover < 1, even when that lands below the 200 ms
threshold; for slowmover >= 1 it multiplies exactly when the multiplied
time exceeds 200 ms and otherwise leaves the per-move time
unmultiplied. -/
theorem applySlowmover_guard (slowmover t : ℚ) :
    (slowmover < 1 → applySlowmover slowmover t = t * slowmover) ∧
    (1 ≤ slowmover → 200 < t * slowmover →
      applySlowmover slowmover t = t * slowmover) ∧
    (1 ≤ slowmover → t * slowmover ≤ 200 →
      applySlowmover slowmover t = t) := by
  refine ⟨fun h => ?_, fun h1 h2 => ?_, fun h1 h2 => ?_⟩
  · simp [applySlowmover, h]
  · simp [applySlowmover, h2]
  · rw [applySlowmover, if_neg]
    push_neg
    exact ⟨h1, h2⟩

/-- Witness for C9 at concrete inputs: a reducing slowmover of 1/2 is
applied to a 300 ms per-move time. -/
theorem applySlowmover_guard_witness :
    applySlowmover (1/2) 300 = 300 * (1/2) :=
  (applySlowmover_guard (1/2) 300).1 (by norm_num)

/-- Helper: the best-child loop only ever returns its accumulator or a
non-excluded edge of the remaining list. -/
theorem bestChildNoTempLoop_mem (isRoot : Bool) (sm : List ℕ) :
    ∀ (edges : List REdge) (best : ℤ × ℚ × ℚ) (acc : Option REdge)
      (e : REdge),
      bestChildNoTempLoop isRoot sm edges best acc = some e →
      acc = some e ∨
        (e ∈ edges ∧ excludedBySearchmoves isRoot sm e.mv = false) := by
  intro edges
  induction edges with
  | nil => intro best acc e h; exact Or.inl h
  | cons c rest ih =>
    intro best acc e h
    simp only [bestChildNoTempLoop] at h
    by_cases hex : excludedBySearchmoves isRoot sm c.mv = true
    · rw [if_pos hex] at h
      rcases ih _ _ _ h with h1 | ⟨h2, h3⟩
      · exact Or.inl h1
      · exact Or.inr ⟨List.mem_cons_of_mem _ h2, h3⟩
    · have hex' : excludedBySearchmoves isRoot sm c.mv = false := by
        simpa using hex
      rw [if_neg hex] at h
      by_cases hgt : tupleGt ((c.n : ℤ), edgeGetQ c (-10), c.p) best = true
      · rw [if_pos hgt] at h
        rcases ih _ _ _ h with h1 | ⟨h2, h3⟩
        · cases h1
          exact Or.inr ⟨List.mem_cons_self _ _, hex'⟩
        · exact Or.inr ⟨List.mem_cons_of_mem _ h2, h3⟩
      · rw [if_neg hgt] at h
        rcases ih _ _ _ h with h1 | ⟨h2, h3⟩
        · exact Or.inl h1
        · exact Or.inr ⟨List.mem_cons_of_mem _ h2, h3⟩

/-- Helper: once the loop accumulator holds an edge, the loop returns
some edge. -/
theorem bestChildNoTempLoop_isSome (isRoot : Bool) (sm : List ℕ) :
    ∀ (edges : List REdge) (best : ℤ × ℚ × ℚ) (e0 : REdge),
      (bestChildNoTempLoop isRoot sm edges best (some e0)).isSome = true := by
  intro edges
  induction edges with
  | nil => intro best e0; rfl
  | cons c rest ih =>
    intro best e0
    simp only [bestChildNoTempLoop]
    by_cases hex : excludedBySearchmoves isRoot sm c.mv = true
    · simp only [if_pos hex]; exact ih _ _
    · rw [if_neg hex]
      by_cases hgt : tupleGt ((c.n : ℤ), edgeGetQ c (-10), c.p) best = true
      · rw [if_pos hgt]; exact ih _ _
      · rw [if_neg hgt]; exact ih _ _

/-- Helper: any edge beats the initial comparison tuple (-1, 0, 0),
since visit counts are nonnegative. -/
theorem tupleGt_init (e : REdge) :
    tupleGt ((e.n : ℤ), edgeGetQ e (-10), e.p) (-1, 0, 0) = true := by
  have h : (-1 : ℤ) < (e.n : ℤ) := by omega
  simp [tupleGt, h]

/-- Helper: when some edge survives the searchmoves filter, the
no-temperature best child exists. -/
theorem getBestChildNoTemperature_isSome (isRoot : Bool) (sm : List ℕ) :
    ∀ edges : List REdge,
      (∃ e ∈ edges, excludedBySearchmoves isRoot sm e.mv = false) →
      (getBestChildNoTemperature isRoot sm edges).isSome = true := by
  intro edges
  induction edges with
  | nil => rintro ⟨e, he, _⟩; cases he
  | cons c rest ih =>
    rintro ⟨e, he, hex⟩
    show (bestChildNoTempLoop isRoot sm (c :: rest) (-1, 0, 0) none).isSome = true
    simp only [bestChildNoTempLoop]
    by_cases hc : excludedBySearchmoves isRoot sm c.mv = true
    · rw [if_pos hc]
      rcases List.mem_cons.mp he with rfl | hmem
      · rw [hex] at hc; cases hc
      · exact ih ⟨e, hmem, hex⟩
    · rw [if_neg hc, if_pos (tupleGt_init c)]
      exact bestChildNoTempLoop_isSome isRoot sm rest _ c

/-- Helper: the root pick loop only ever returns its accumulator or an
edge of the list passing the searchmoves filter. -/
theorem rootPickLoop_mem (a : RootPickArgs) :
    ∀ (edges : List REdge) (best : ℚ) (acc : Option REdge) (pm : ℕ)
      (e : REdge),
      (rootPickLoop a edges best acc pm).1 = some e →
      acc = some e ∨
        (e ∈ edges ∧ (a.searchmoves.isEmpty = false →
          a.searchmoves.contains e.mv = true)) := by
  intro edges
  induction edges with
  | nil => intro best acc pm e h; exact Or.inl h
  | cons c rest ih =>
    intro best acc pm e h
    simp only [rootPickLoop] at h
    by_cases hprune : a.bestMoveEdge ≠ some c.mv ∧
        a.remainingPlayouts < a.bestNodeN - (c.n : ℤ)
    · rw [if_pos hprune] at h
      rcases ih _ _ _ _ h with h1 | ⟨h2, h3⟩
      · exact Or.inl h1
      · exact Or.inr ⟨List.mem_cons_of_mem _ h2, h3⟩
    · rw [if_neg hprune] at h
      by_cases hsm : (!a.searchmoves.isEmpty && !a.searchmoves.contains c.mv) = true
      · rw [if_pos hsm] at h
        rcases ih _ _ _ _ h with h1 | ⟨h2, h3⟩
        · exact Or.inl h1
        · exact Or.inr ⟨List.mem_cons_of_mem _ h2, h3⟩
      · have hpass : a.searchmoves.isEmpty = false →
            a.searchmoves.contains c.mv = true := by
          intro hne
          have hsm' :
              (!a.searchmoves.isEmpty && !a.searchmoves.contains c.mv) =
                false := by simpa using hsm
          simp only [hne, Bool.not_false, Bool.true_and] at hsm'
          simpa using hsm'
        rw [if_neg hsm] at h
        by_cases hst : a.stickyCheckmate ∧ edgeGetQ c a.parentQ = 1 ∧
            c.isTerminal
        · rw [if_pos hst] at h
          cases h
          exact Or.inr ⟨List.mem_cons_self _ _, hpass⟩
        · rw [if_neg hst] at h
          by_cases hlt : best < edgeGetU c a.puctMult + edgeGetQ c a.parentQ
          · rw [if_pos hlt] at h
            rcases ih _ _ _ _ h with h1 | ⟨h2, h3⟩
            · cases h1
              exact Or.inr ⟨List.mem_cons_self _ _, hpass⟩
            · exact Or.inr ⟨List.mem_cons_of_mem _ h2, h3⟩
          · rw [if_neg hlt] at h
            rcases ih _ _ _ _ h with h1 | ⟨h2, h3⟩
            · exact Or.inl h1
            · exact Or.inr ⟨List.mem_cons_of_mem _ h2, h3⟩

/-- Claim C6: with a non-empty searchmoves restriction no root edge
outside the restriction is ever selected: the root loop of
PickNodeToExtend picks only included edges, GetBestChildNoTemperature
and GetBestChildWithTemperature return only included edges, and with
searchmoves = {m} and m among the root edges the returned best move
is m. -/
theorem searchmoves_restriction (a : RootPickArgs) (edges : List REdge)
    (sm : List ℕ) (powf : ℚ → ℚ → ℚ) (temperature nParent toss : ℚ)
    (m : ℕ) :
    (∀ e : REdge, (pickRootCandidate a edges).1 = some e →
      a.searchmoves ≠ [] → e.mv ∈ a.searchmoves) ∧
    (∀ e : REdge, getBestChildNoTemperature true sm edges = some e →
      sm ≠ [] → e.mv ∈ sm) ∧
    (∀ e : REdge,
      getBestChildWithTemperature true sm edges powf temperature nParent
        toss = some e → sm ≠ [] → e.mv ∈ sm) ∧
    ((∃ e ∈ edges, e.mv = m) →
      ∃ e : REdge, getBestChildNoTemperature true [m] edges = some e ∧
        e.mv = m) := by
  refine ⟨fun e h hne => ?_, fun e h hne => ?_, fun e h hne => ?_,
    fun hm => ?_⟩
  · rcases rootPickLoop_mem a edges (-100) none 0 e h with h1 | ⟨_, h2⟩
    · cases h1
    · have := h2 (by simpa using hne)
      simpa using this
  · rcases bestChildNoTempLoop_mem true sm edges (-1, 0, 0) none e h with
      h1 | ⟨_, h2⟩
    · cases h1
    · simp [excludedBySearchmoves] at h2
      exact h2 hne
  · have hmem : e ∈ includedEdges true sm edges :=
      List.getElem?_mem h
    have hinc := (List.mem_filter.mp hmem).2
    simp [excludedBySearchmoves] at hinc
    exact hinc.resolve_left hne
  · rcases hm with ⟨e0, he0, hmv⟩
    have hex : excludedBySearchmoves true [m] e0.mv = false := by
      simp [excludedBySearchmoves, hmv]
    have hsome := getBestChildNoTemperature_isSome true [m] edges ⟨e0, he0, hex⟩
    rcases Option.isSome_iff_exists.mp hsome with ⟨e, he⟩
    refine ⟨e, he, ?_⟩
    rcases bestChildNoTempLoop_mem true [m] edges (-1, 0, 0) none e he with
      h1 | ⟨_, h2⟩
    · cases h1
    · simp only [excludedBySearchmoves] at h2
      simpa using h2

/-- Witness for C6 at concrete root edges: restricting to the single
move 5 returns the edge with move 5 even though the other edge has more
visits. -/
theorem searchmoves_restriction_witness :
    ∃ e : REdge,
      getBestChildNoTemperature true [5]
        [⟨1, 7, 0, 1/2, false⟩, ⟨5, 0, 0, 1/2, false⟩] = some e ∧
      e.mv = 5 :=
  (searchmoves_restriction ⟨false, 0, 0, none, [], 0, 0⟩
    [⟨1, 7, 0, 1/2, false⟩, ⟨5, 0, 0, 1/2, false⟩] [5] (fun a _ => a)
    0 0 0 5).2.2.2 ⟨⟨5, 0, 0, 1/2, false⟩, by simp, rfl⟩

/-- Helper: a list mapped through a rounding with pointwise error at
most eps changes its sum by at most length * eps. -/
theorem sum_map_rnd_close (rnd : ℚ → ℚ) (eps : ℚ)
    (hrnd : ∀ x : ℚ, |rnd x - x| ≤ eps) :
    ∀ l : List ℚ, |(l.map rnd).sum - l.sum| ≤ l.length * eps := by
  intro l
  induction l with
  | nil => simp
  | cons x xs ih =>
    simp only [List.map_cons, List.sum_cons, List.length_cons]
    have h1 : rnd x + (xs.map rnd).sum - (x + xs.sum) =
        (rnd x - x) + ((xs.map rnd).sum - xs.sum) := by ring
    calc |rnd x + (xs.map rnd).sum - (x + xs.sum)|
        = |(rnd x - x) + ((xs.map rnd).sum - xs.sum)| := by rw [h1]
      _ ≤ |rnd x - x| + |(xs.map rnd).sum - xs.sum| := abs_add _ _
      _ ≤ eps + xs.length * eps := add_le_add (hrnd x) ih
      _ = ((xs.length + 1 : ℕ) : ℚ) * eps := by push_cast; ring

/-- Helper: scaling every list element multiplies the sum. -/
theorem sum_map_mul_const (c : ℚ) :
    ∀ l : List ℚ, (l.map (fun p => p * c)).sum = l.sum * c := by
  intro l
  induction l with
  | nil => simp
  | cons x xs ih =>
    simp only [List.map_cons, List.sum_cons, ih]
    ring

/-- Claim C7: for an NN-backed minibatch entry the backed-up value is
-get_q(i); each edge prior is raised to the power 1/policy_softmax_temp
when that temperature differs from 1; and after the lossy per-edge
rounding (pointwise error at most eps) the priors of the leaf's edges
are normalized so that they sum to 1 up to the accumulated rounding
error (number of edges times eps), for every expanded node whose
post-rounding prior total is positive. -/
theorem fetchSingleNodeResult_value_and_normalization (temp : ℚ)
    (powf : ℚ → ℚ → ℚ) (rnd : ℚ → ℚ) (eps qval : ℚ) (ps : List ℚ)
    (hrnd : ∀ x : ℚ, |rnd x - x| ≤ eps)
    (hpos : 0 < (storedPriors temp powf rnd ps).sum) :
    fetchValue qval = -qval ∧
    (temp ≠ 1 → storedPriors temp powf rnd ps =
      ps.map (fun p => rnd (powf p (1 / temp)))) ∧
    |(fetchPolicy temp powf rnd ps).sum - 1| ≤ ps.length * eps := by
  refine ⟨rfl, fun ht => ?_, ?_⟩
  · simp only [storedPriors]
    congr 1
    funext p
    simp [softmaxTempTransform, ht]
  · have hfp : fetchPolicy temp powf rnd ps =
        ((storedPriors temp powf rnd ps).map
          (fun p => p * (1 / (storedPriors temp powf rnd ps).sum))).map
            rnd := by
      simp only [fetchPolicy, if_pos hpos, List.map_map]
      rfl
    rw [hfp]
    have hsum1 : ((storedPriors temp powf rnd ps).map
        (fun p => p * (1 / (storedPriors temp powf rnd ps).sum))).sum = 1 := by
      rw [sum_map_mul_const, mul_one_div, div_self (ne_of_gt hpos)]
    have hlen : ((storedPriors temp powf rnd ps).map
        (fun p => p * (1 / (storedPriors temp powf rnd ps).sum))).length =
        ps.length := by simp [storedPriors]
    have hb := sum_map_rnd_close rnd eps hrnd
      ((storedPriors temp powf rnd ps).map
        (fun p => p * (1 / (storedPriors temp powf rnd ps).sum)))
    rw [hsum1, hlen] at hb
    exact hb

/-- Witness for C7 with the identity rounding (eps = 0), softmax
temperature 1 and priors 1/2 and 1/3: the normalized priors sum to
exactly 1. -/
theorem fetchSingleNodeResult_witness :
    |(fetchPolicy 1 (fun a _ => a) (fun x => x) [1/2, 1/3]).sum - 1| ≤
      ([1/2, 1/3] : List ℚ).length * 0 :=
  (fetchSingleNodeResult_value_and_normalization 1 (fun a _ => a)
    (fun x => x) 0 (1/4) [1/2, 1/3] (fun x => by simp)
    (by norm_num [storedPriors, softmaxTempTransform])).2.2

/-- Helper: cumSums has as many entries as there are weights. -/
theorem cumSums_length (ws : List ℚ) : (cumSums ws).length = ws.length := by
  simp [cumSums]

/-- Helper: the j-th cumulative sum is the sum of the first j+1
weights. -/
theorem cumSums_getElem (ws : List ℚ) (j : ℕ)
    (hj : j < (cumSums ws).length) :
    (cumSums ws)[j] = sumTo ws (j + 1) := by
  simp [cumSums]

/-- Helper: one more weight extends the partial sum by that weight. -/
theorem sumTo_succ (ws : List ℚ) (j : ℕ) (hj : j < ws.length) :
    sumTo ws (j + 1) = sumTo ws j + ws[j] := by
  rw [sumTo, sumTo, List.take_succ, List.sum_append,
    List.getElem?_eq_getElem hj]
  simp

/-- Helper: partial sums of nonnegative weights are monotone. -/
theorem sumTo_mono (ws : List ℚ) (hw : ∀ w ∈ ws, 0 ≤ w) :
    ∀ (k : ℕ), k ≤ ws.length → ∀ j, j ≤ k → sumTo ws j ≤ sumTo ws k := by
  intro k
  induction k with
  | zero =>
    intro _ j hj
    have : j = 0 := by omega
    subst this; exact le_refl _
  | succ k ih =>
    intro hk j hj
    rcases Nat.lt_or_ge j (k + 1) with h | h
    · have h1 : sumTo ws j ≤ sumTo ws k := ih (by omega) j (by omega)
      have hkl : k < ws.length := by omega
      have h2 : sumTo ws (k + 1) = sumTo ws k + ws[k] :=
        sumTo_succ ws k hkl
      have h3 : 0 ≤ ws[k] := hw _ (List.getElem_mem hkl)
      linarith
    · have hjk : j = k + 1 := by omega
      subst hjk; exact le_refl _

/-- Helper: lower_bound over the monotone cumulative sums lands on index
i exactly when the toss lies in that index's cumulative interval. -/
theorem lowerBoundIdx_interval (ws : List ℚ) (hw : ∀ w ∈ ws, 0 ≤ w)
    (t : ℚ) (ht : 0 < t) (i : ℕ) (hi : i < ws.length) :
    lowerBoundIdx (cumSums ws) t = i ↔
      sumTo ws i < t ∧ t ≤ sumTo ws (i + 1) := by
  have hlen : i < (cumSums ws).length := by rwa [cumSums_length]
  rw [lowerBoundIdx, List.findIdx_eq hlen]
  constructor
  · rintro ⟨h1, h2⟩
    constructor
    · rcases Nat.eq_zero_or_pos i with rfl | hpos
      · simpa [sumTo] using ht
      · have hj := h2 (i - 1) (by omega)
        simp only [decide_eq_false_iff_not, not_le] at hj
        have hgl : (i - 1) < (cumSums ws).length := by omega
        rw [cumSums_getElem ws (i - 1) hgl] at hj
        have hi1 : i - 1 + 1 = i := by omega
        rwa [hi1] at hj
    · simp only [decide_eq_true_eq] at h1
      rwa [cumSums_getElem ws i hlen] at h1
  · rintro ⟨h1, h2⟩
    constructor
    · simp only [decide_eq_true_eq]
      rw [cumSums_getElem ws i hlen]
      exact h2
    · intro j hji
      simp only [decide_eq_false_iff_not, not_le]
      have hgl : j < (cumSums ws).length := by omega
      rw [cumSums_getElem ws j hgl]
      have hmono : sumTo ws (j + 1) ≤ sumTo ws i :=
        sumTo_mono ws hw i (by omega) (j + 1) (by omega)
      linarith

/-- Claim C8 counterexample: with temperature 1, tempdecay-moves 1 and
one half-move (game ply 1) played, the code keeps temperature 1 (moves =
ply / 2 = 0 full moves), while a decay linear over tempdecay-moves
half-moves would already have reached 0. -/
theorem temperature_decay_counterexample :
    decayedTemperature 1 1 1 = 1 ∧ claimDecayedTemperature 1 1 1 = 0 ∧
    (1 : ℚ) ≠ 0 := by
  refine ⟨?_, ?_, by norm_num⟩
  · norm_num [decayedTemperature]
  · norm_num [claimDecayedTemperature]

/-- Claim C8 (amended): with temperature > 0 and tempdecay-moves > 0,
GetBestMoveInternal decays the temperature linearly in full moves
(GetGamePly() / 2), reaching 0 exactly once 2 * tempdecay_moves
half-moves of game were played; GetBestChildWithTemperature selects the
included root edge whose cumulative interval of the weights
(n_i / n_parent)^(1 / temperature) contains the toss, i.e. edge i with
probability proportional to its weight under a uniformly drawn toss. -/
theorem temperature_decay_and_sampling (τ : ℚ) (D gamePly : ℕ)
    (isRoot : Bool) (sm : List ℕ) (edges : List REdge)
    (powf : ℚ → ℚ → ℚ) (temperature nParent t : ℚ) (i : ℕ) :
    (0 < τ → D ≠ 0 →
      (decayedTemperature τ D gamePly = 0 ↔ 2 * D ≤ gamePly)) ∧
    (τ ≠ 0 → D ≠ 0 → gamePly / 2 < D →
      decayedTemperature τ D gamePly =
        τ * (((D - gamePly / 2 : ℕ) : ℚ) / (D : ℚ))) ∧
    (getBestChildWithTemperature isRoot sm edges powf temperature nParent
        t =
      (includedEdges isRoot sm edges)[lowerBoundIdx
        (cumSums (tempWeights powf temperature nParent
          (includedEdges isRoot sm edges))) t]?) ∧
    ((∀ w ∈ tempWeights powf temperature nParent
        (includedEdges isRoot sm edges), 0 ≤ w) → 0 < t →
      i < (tempWeights powf temperature nParent
        (includedEdges isRoot sm edges)).length →
      (lowerBoundIdx (cumSums (tempWeights powf temperature nParent
          (includedEdges isRoot sm edges))) t = i ↔
        sumTo (tempWeights powf temperature nParent
          (includedEdges isRoot sm edges)) i < t ∧
        t ≤ sumTo (tempWeights powf temperature nParent
          (includedEdges isRoot sm edges)) (i + 1))) := by
  refine ⟨fun hτ hD => ?_, fun hτ hD hlt => ?_, rfl, fun hw ht hi =>
    lowerBoundIdx_interval _ hw t ht i hi⟩
  · have hτ' : τ ≠ 0 := ne_of_gt hτ
    simp only [decayedTemperature, hτ', hD, ne_eq, not_false_eq_true,
      and_self, if_true]
    by_cases hle : D ≤ gamePly / 2
    · simp only [if_pos hle]
      constructor
      · intro _; omega
      · intro _; trivial
    · simp only [if_neg hle]
      constructor
      · intro heq
        have hc1 : (0 : ℚ) < ((D - gamePly / 2 : ℕ) : ℚ) := by
          have hn : 0 < D - gamePly / 2 := by omega
          exact_mod_cast hn
        have hc2 : (0 : ℚ) < (D : ℚ) := by
          have hn : 0 < D := Nat.pos_of_ne_zero hD
          exact_mod_cast hn
        have hpos : 0 < τ * (((D - gamePly / 2 : ℕ) : ℚ) / (D : ℚ)) := by
          positivity
        rw [heq] at hpos
        exact absurd hpos (lt_irrefl 0)
      · intro h2d
        exact absurd (by omega : D ≤ gamePly / 2) hle
  · have hle : ¬(D ≤ gamePly / 2) := by omega
    simp [decayedTemperature, hτ, hD, hle]

/-- Witness for C8 at concrete weights 1/4 and 3/4 (visit counts 1 and 3
of 4 parent visits, temperature 1): the toss 1/2 selects index 1. -/
theorem temperature_decay_and_sampling_witness :
    lowerBoundIdx (cumSums (tempWeights (fun a _ => a) 1 4
      (includedEdges false []
        [⟨1, 1, 0, 0, false⟩, ⟨2, 3, 0, 0, false⟩]))) (1/2) = 1 := by
  have h := (temperature_decay_and_sampling 1 1 0 false []
    [⟨1, 1, 0, 0, false⟩, ⟨2, 3, 0, 0, false⟩] (fun a _ => a) 1 4 (1/2)
    1).2.2.2
  refine (h ?_ (by norm_num) ?_).mpr ⟨?_, ?_⟩
  · intro w hwmem
    simp [tempWeights, includedEdges, excludedBySearchmoves] at hwmem
    rcases hwmem with rfl | rfl <;> norm_num
  · norm_num [tempWeights, includedEdges, excludedBySearchmoves]
  · norm_num [sumTo, tempWeights, includedEdges, excludedBySearchmoves]
  · norm_num [sumTo, tempWeights, includedEdges, excludedBySearchmoves]

/-- Claim C10: the reported hashfull is size * 1000 / max(capacity, 1);
the divisor is at least 1 (the computation is total even with the cache
capacity configured to 0), and the value equals size * 1000 / capacity
whenever capacity is at least 1. -/
theorem uciHashfull_total (size capacity : ℕ) :
    1 ≤ max capacity 1 ∧
    uciHashfull size 0 = size * 1000 ∧
    (1 ≤ capacity → uciHashfull size capacity = size * 1000 / capacity) := by
  refine ⟨le_max_right _ _, by simp [uciHashfull], fun h => ?_⟩
  simp [uciHashfull, Nat.max_eq_left h]

/-- Witness for C10 at a concrete cache state. -/
theorem uciHashfull_total_witness :
    uciHashfull 7 2 = 7 * 1000 / 2 := (uciHashfull_total 7 2).2.2 (by norm_num)

end LcZero
